import Mathlib

/-!
Verification development for the contract-analysis core: a shallow embedding
of the dynamic chunker (tools/dynamic_chunker.py), the mock routing engine
(tools/mock_router.py) and the template DAG runner (tools/dag_runner.py),
with theorems checking the specification's claims against the embedded code.

Conventions of the embedding:
* Python floats are modelled as exact rationals (Rat).
* Python strings are Lean strings; lower-casing and word characters follow
  the ASCII behaviour, which is what the repository's data exercises.
* Fallible code paths are modelled with Except / Option, and the unbounded
  depth-first recursion of the DAG runner is modelled with explicit fuel.
-/

namespace ContractCore

/-- Embedding of tools/spine_types.py SpineNode (the meta bag is irrelevant
to chunking and is omitted; no chunker code path reads it). -/
structure SpineNode where
  node_id : String
  kind : String
  title : String
  text : String
  span_start : Int
  span_end : Int
  mass : Rat
  deriving Repr, DecidableEq

/-- ASCII lower-casing of one character (the behaviour of str.lower() on
the ASCII range, which is what the repository's data exercises). -/
def lowerChar (c : Char) : Char :=
  if 'A' ≤ c && c ≤ 'Z' then Char.ofNat (c.toNat + 32) else c

/-- str.lower() on a whole string. -/
def strLower (s : String) : String := String.mk (s.data.map lowerChar)

/-- The characters str.strip() removes. -/
def isPySpace (c : Char) : Bool :=
  c = ' ' ∨ c = '\t' ∨ c = '\n' ∨ c = '\r' ∨ c = '\x0b' ∨ c = '\x0c'

/-- str.strip(): drop whitespace from both ends. -/
def strStrip (s : String) : String :=
  String.mk (((s.data.dropWhile isPySpace).reverse.dropWhile isPySpace).reverse)

/-- Characters matched by TOKEN_PATTERN = [a-z0-9_]+ (applied to lower-cased
text in tools/dynamic_chunker.py _tokenize). -/
def isTokenChar (c : Char) : Bool :=
  (('a' ≤ c && c ≤ 'z') || ('0' ≤ c && c ≤ '9') || c = '_')

/-- Maximal runs of token characters, i.e. the regex findall of [a-z0-9_]+. -/
def tokenRuns : List Char → List (List Char)
  | [] => []
  | c :: cs =>
    match tokenRuns cs with
    | [] => if isTokenChar c then [[c]] else []
    | run :: rest =>
      if isTokenChar c then
        match cs with
        | [] => [[c]]
        | c2 :: _ => if isTokenChar c2 then (c :: run) :: rest else [c] :: run :: rest
      else run :: rest

/-- Embedding of _tokenize: the set of lower-cased word tokens of a text. -/
def tokenize (s : String) : Finset String :=
  ((tokenRuns (s.data.map lowerChar)).map (fun cs => String.mk cs)).toFinset

/-- Embedding of _strength (tools/dynamic_chunker.py lines 90-99): Jaccard
token overlap decayed by inter-span distance. -/
def strength (left right : SpineNode) : Rat :=
  let leftTokens := tokenize left.text
  let rightTokens := tokenize right.text
  if leftTokens = ∅ ∨ rightTokens = ∅ then 0
  else
    let overlapRatio : Rat :=
      ((leftTokens ∩ rightTokens).card : Rat) / (max 1 ((leftTokens ∪ rightTokens).card) : Nat)
    let distance : Int := max 1 (right.span_start - left.span_end)
    let distanceDecay : Rat := 1 / (1 + (distance : Rat) / 400)
    overlapRatio * distanceDecay

/-- The merge threshold 0.02 + 0.015 * ((current.mass + candidate.mass) / 2). -/
def threshold (current candidate : SpineNode) : Rat :=
  0.02 + 0.015 * ((current.mass + candidate.mass) / 2)

/-- The greedy absorption test of build_chunks: strength >= threshold. -/
def mergeOk (current candidate : SpineNode) : Bool :=
  threshold current candidate ≤ strength current candidate

/-- A raw mapping accepted by _coerce_nodes in place of a SpineNode; each
field is optional exactly as dict.get supplies defaults in the source. -/
structure RawNode where
  node_id : Option String := none
  kind : Option String := none
  title : Option String := none
  text : Option String := none
  span_start : Option Int := none
  span_end : Option Int := none
  mass : Option Rat := none
  deriving Repr, DecidableEq

/-- Input to build_chunks: a structured SpineNode or a raw mapping. -/
inductive NodeInput where
  | structured (n : SpineNode)
  | raw (r : RawNode)
  deriving Repr, DecidableEq

/-- The identifier _coerce_nodes assigns to the input at (1-based) index:
a structured node keeps its id, a raw mapping defaults to node_{index}. -/
def inputIdOf (index : Nat) : NodeInput → String
  | .structured n => n.node_id
  | .raw r => r.node_id.getD ("node_" ++ toString index)

/-- The multiset-of-identifiers view of the input node list. -/
def inputIds (inputs : List NodeInput) : List String :=
  inputs.enum.map (fun p => inputIdOf (p.1 + 1) p.2)

/-- One normalization step of _coerce_nodes (lines 67-84): a structured node
passes through, a raw mapping is filled with the documented defaults
(note mass falls back to 1.0 when absent or falsy-zero, spans to 0). -/
def coerceOne (index : Nat) : NodeInput → SpineNode
  | .structured n => n
  | .raw r =>
    { node_id := r.node_id.getD ("node_" ++ toString index)
      kind := r.kind.getD "paragraph"
      title := r.title.getD ""
      text := r.text.getD ""
      span_start := r.span_start.getD 0
      span_end := r.span_end.getD 0
      mass := match r.mass with
        | none => 1
        | some q => if q = 0 then 1 else q }

/-- The sort key order of _coerce_nodes: lexicographic on
(span_start, span_end, node_id), as Python compares key tuples. -/
def nodeLe (a b : SpineNode) : Prop :=
  a.span_start < b.span_start ∨
    (a.span_start = b.span_start ∧
      (a.span_end < b.span_end ∨ (a.span_end = b.span_end ∧ a.node_id ≤ b.node_id)))

instance nodeLe.instDecidable : DecidableRel nodeLe := fun a b => by
  unfold nodeLe
  infer_instance

/-- Embedding of _coerce_nodes: normalize every input then stable-sort by
the span key (insertion sort agrees with Python's stable sort on any total
preorder). -/
def coerceNodes (inputs : List NodeInput) : List SpineNode :=
  List.insertionSort nodeLe (inputs.enum.map (fun p => coerceOne (p.1 + 1) p.2))

/-- Embedding of the inner look-ahead loop of build_chunks (lines 115-124):
absorb successive candidates while the merge test passes, stopping at the
first rejection or when the window budget runs out.  Returns the absorbed
candidates and the unconsumed remainder. -/
def growChunk : SpineNode → List SpineNode → Nat → List SpineNode × List SpineNode
  | _, rest, 0 => ([], rest)
  | _, [], _ + 1 => ([], [])
  | current, cand :: rest, budget + 1 =>
    if mergeOk current cand then
      let p := growChunk cand rest budget
      (cand :: p.1, p.2)
    else ([], cand :: rest)

theorem growChunk_snd_length (current : SpineNode) (l : List SpineNode) (budget : Nat) :
    (growChunk current l budget).2.length ≤ l.length := by
  induction budget generalizing current l with
  | zero => simp [growChunk]
  | succ b ih =>
    cases l with
    | nil => simp [growChunk]
    | cons cand rest =>
      simp only [growChunk]
      by_cases h : mergeOk current cand = true
      · simp only [h, if_true]
        exact le_trans (ih cand rest) (Nat.le_succ _)
      · simp [h]

theorem growChunk_append (current : SpineNode) (l : List SpineNode) (budget : Nat) :
    (growChunk current l budget).1 ++ (growChunk current l budget).2 = l := by
  induction budget generalizing current l with
  | zero => simp [growChunk]
  | succ b ih =>
    cases l with
    | nil => simp [growChunk]
    | cons cand rest =>
      simp only [growChunk]
      by_cases h : mergeOk current cand = true
      · simp only [h, if_true, List.cons_append, List.cons.injEq, true_and]
        exact ih cand rest
      · simp [h]

/-- The greedy outer loop of build_chunks (lines 110-140) viewed as the list
of member groups: each unconsumed node seeds a chunk that absorbs the run
accepted by growChunk, and the scan resumes right after the absorbed run. -/
def chunkGroups (budget : Nat) : List SpineNode → List (List SpineNode)
  | [] => []
  | seed :: rest =>
    (seed :: (growChunk seed rest budget).1) :: chunkGroups budget (growChunk seed rest budget).2
termination_by l => l.length
decreasing_by
  exact Nat.lt_succ_of_le (growChunk_snd_length seed rest budget)

theorem chunkGroups_flatten (budget : Nat) (l : List SpineNode) :
    (chunkGroups budget l).flatten = l := by
  have H : ∀ (n : Nat) (l : List SpineNode), l.length ≤ n →
      (chunkGroups budget l).flatten = l := by
    intro n
    induction n with
    | zero =>
      intro l hl
      have : l = [] := List.length_eq_zero.mp (Nat.le_zero.mp hl)
      subst this
      simp [chunkGroups]
    | succ n ih =>
      intro l hl
      cases l with
      | nil => simp [chunkGroups]
      | cons seed rest =>
        rw [chunkGroups]
        simp only [List.flatten_cons, List.cons_append]
        have hlen : (growChunk seed rest budget).2.length ≤ n :=
          le_trans (growChunk_snd_length seed rest budget)
            (Nat.succ_le_succ_iff.mp hl)
        rw [ih _ hlen, List.cons.injEq]
        exact ⟨rfl, growChunk_append seed rest budget⟩
  exact H l.length l le_rfl

theorem chunkGroups_ne_nil (budget : Nat) (l : List SpineNode) :
    ∀ g ∈ chunkGroups budget l, g ≠ [] := by
  have H : ∀ (n : Nat) (l : List SpineNode), l.length ≤ n →
      ∀ g ∈ chunkGroups budget l, g ≠ [] := by
    intro n
    induction n with
    | zero =>
      intro l hl
      have : l = [] := List.length_eq_zero.mp (Nat.le_zero.mp hl)
      subst this
      simp [chunkGroups]
    | succ n ih =>
      intro l hl
      cases l with
      | nil => simp [chunkGroups]
      | cons seed rest =>
        rw [chunkGroups]
        intro g hg
        rcases List.mem_cons.mp hg with h | h
        · subst h; simp
        · have hlen : (growChunk seed rest budget).2.length ≤ n :=
            le_trans (growChunk_snd_length seed rest budget)
              (Nat.succ_le_succ_iff.mp hl)
          exact ih _ hlen g h
  exact H l.length l le_rfl

theorem growChunk_chain (current : SpineNode) (l : List SpineNode) (budget : Nat) :
    List.Chain' (fun x y => mergeOk x y = true)
      (current :: (growChunk current l budget).1) := by
  induction budget generalizing current l with
  | zero => simp [growChunk]
  | succ b ih =>
    cases l with
    | nil => simp [growChunk]
    | cons cand rest =>
      simp only [growChunk]
      by_cases h : mergeOk current cand = true
      · simp only [h, if_true]
        exact List.Chain'.cons h (ih cand rest)
      · simp [h]

/-- Every consecutive pair of nodes inside one greedy chunk passed the merge
test: chunks only ever absorb candidates whose strength met the threshold. -/
theorem chunkGroups_chain (budget : Nat) (l : List SpineNode) :
    ∀ g ∈ chunkGroups budget l, List.Chain' (fun x y => mergeOk x y = true) g := by
  have H : ∀ (n : Nat) (l : List SpineNode), l.length ≤ n →
      ∀ g ∈ chunkGroups budget l, List.Chain' (fun x y => mergeOk x y = true) g := by
    intro n
    induction n with
    | zero =>
      intro l hl
      have : l = [] := List.length_eq_zero.mp (Nat.le_zero.mp hl)
      subst this
      simp [chunkGroups]
    | succ n ih =>
      intro l hl
      cases l with
      | nil => simp [chunkGroups]
      | cons seed rest =>
        rw [chunkGroups]
        intro g hg
        rcases List.mem_cons.mp hg with h | h
        · subst h
          exact growChunk_chain seed rest budget
        · have hlen : (growChunk seed rest budget).2.length ≤ n :=
            le_trans (growChunk_snd_length seed rest budget)
              (Nat.succ_le_succ_iff.mp hl)
          exact ih _ hlen g h
  exact H l.length l le_rfl

/-- Round-half-to-even integer rounding, modelling Python round. -/
def roundHalfEven (x : Rat) : Int :=
  let f : Int := ⌊x⌋
  let frac : Rat := x - f
  if frac < 1 / 2 then f
  else if 1 / 2 < frac then f + 1
  else if f % 2 = 0 then f else f + 1

/-- Python round(x, 6) on the embedded rationals. -/
def round6 (x : Rat) : Rat := (roundHalfEven (x * 1000000) : Rat) / 1000000

/-- Embedding of the Chunk dataclass (tools/dynamic_chunker.py lines 13-30). -/
structure Chunk where
  chunk_id : String
  node_ids : List String
  span_start : Int
  span_end : Int
  mass : Rat
  excerpt : String
  deriving Repr, DecidableEq

/-- The excerpt of a member group: the non-empty member texts joined by a
blank line, then stripped. -/
def excerptOf (group : List SpineNode) : String :=
  strStrip (String.intercalate "\n\n" ((group.filter (fun n => n.text ≠ "")).map (·.text)))

/-- Minimum span_start over a member group (groups are never empty where
this is used; the nil case mirrors no reachable source behaviour). -/
def groupSpanStart : List SpineNode → Int
  | [] => 0
  | n :: rest => rest.foldl (fun acc m => min acc m.span_start) n.span_start

/-- Maximum span_end over a member group. -/
def groupSpanEnd : List SpineNode → Int
  | [] => 0
  | n :: rest => rest.foldl (fun acc m => max acc m.span_end) n.span_end

/-- The Chunk record built from the k-th (0-based) greedy member group
(tools/dynamic_chunker.py lines 129-139). -/
def mkChunk (k : Nat) (group : List SpineNode) : Chunk :=
  { chunk_id := "chunk_" ++ toString (k + 1)
    node_ids := group.map (·.node_id)
    span_start := groupSpanStart group
    span_end := groupSpanEnd group
    mass := round6 ((group.map (·.mass)).sum)
    excerpt := excerptOf group }

/-- The chunking parameters: the effective look-ahead window and the merge
strategy tag echoed into the output (the params dict of the source). -/
structure ChunkParams where
  window : Int
  merge : String
  deriving Repr, DecidableEq

/-- Embedding of the ChunkGraph dataclass. -/
structure ChunkGraph where
  chunks : List Chunk
  params : ChunkParams
  deriving Repr, DecidableEq

/-- Embedding of build_chunks (tools/dynamic_chunker.py lines 102-158):
coerce and sort the inputs, run the greedy merge pass, then apply the
minimum-chunk fallback (one chunk per node) when the greedy pass produced
fewer than min(3, node_count) chunks. -/
def buildChunks (inputs : List NodeInput) (windowParam : Option Int) : ChunkGraph :=
  let window : Int := windowParam.getD 6
  let workingNodes := coerceNodes inputs
  let chunks := (chunkGroups window.toNat workingNodes).enum.map
    (fun p => mkChunk p.1 p.2)
  let minimumChunks := min 3 workingNodes.length
  let finalChunks :=
    if chunks.length < minimumChunks ∧ minimumChunks ≤ workingNodes.length then
      workingNodes.enum.map (fun p =>
        { chunk_id := "chunk_" ++ toString (p.1 + 1)
          node_ids := [p.2.node_id]
          span_start := p.2.span_start
          span_end := p.2.span_end
          mass := round6 p.2.mass
          excerpt := p.2.text })
    else chunks
  { chunks := finalChunks, params := { window := window, merge := "mass_strength_naive" } }

/-- Embedding of the ChunkHit dataclass. -/
structure ChunkHit where
  chunk_id : String
  score : Rat
  mass : Rat
  span_start : Int
  span_end : Int
  excerpt : String
  node_ids : List String
  deriving Repr, DecidableEq

/-- Descending stable order on the key (score, mass) used by rank_chunks:
lexicographic, score first, as Python compares key tuples. -/
def hitGe (a b : ChunkHit) : Prop :=
  b.score < a.score ∨ (b.score = a.score ∧ b.mass ≤ a.mass)

instance hitGe.instDecidable : DecidableRel hitGe := fun a b => by
  unfold hitGe
  infer_instance

/-- Embedding of rank_chunks (tools/dynamic_chunker.py lines 161-185): an
empty token set falls back to the single token "contract"; each chunk is
scored by query-overlap ratio plus a small mass bonus; hits are sorted
descending by (score, mass) and the top max(1, k) are returned. -/
def rankChunks (chunkGraph : ChunkGraph) (query : String) (k : Int) : List ChunkHit :=
  let queryTokens := tokenize query
  let queryTokens := if queryTokens = ∅ then {"contract"} else queryTokens
  let scored := chunkGraph.chunks.map (fun chunk =>
    let chunkTokens := tokenize chunk.excerpt
    let overlap := (queryTokens ∩ chunkTokens).card
    let overlapScore : Rat := (overlap : Rat) / (max 1 queryTokens.card : Nat)
    let totalScore := overlapScore + chunk.mass * 0.01
    { chunk_id := chunk.chunk_id
      score := round6 totalScore
      mass := chunk.mass
      span_start := chunk.span_start
      span_end := chunk.span_end
      excerpt := chunk.excerpt
      node_ids := chunk.node_ids })
  (List.insertionSort hitGe scored).take (max 1 k).toNat

/-- All node identifiers mentioned by the chunks of a graph, in order. -/
def chunkNodeIds (g : ChunkGraph) : List String :=
  (g.chunks.map (·.node_ids)).flatten

theorem coerceOne_node_id (index : Nat) (x : NodeInput) :
    (coerceOne index x).node_id = inputIdOf index x := by
  cases x <;> rfl

theorem flatten_map_singleton {α β : Type} (f : α → β) (l : List α) :
    (l.map (fun x => [f x])).flatten = l.map f := by
  induction l with
  | nil => rfl
  | cons a t ih => simp [ih]

theorem length_le_length_flatten {α : Type} (groups : List (List α))
    (h : ∀ g ∈ groups, g ≠ []) : groups.length ≤ groups.flatten.length := by
  induction groups with
  | nil => simp
  | cons g rest ih =>
    have hg : g ≠ [] := h g (List.mem_cons_self g rest)
    have hlen : 1 ≤ g.length := List.length_pos.mpr hg
    simp only [List.length_cons, List.flatten_cons, List.length_append]
    have := ih (fun g' hg' => h g' (List.mem_cons_of_mem _ hg'))
    omega

theorem coerceNodes_length (inputs : List NodeInput) :
    (coerceNodes inputs).length = inputs.length := by
  unfold coerceNodes
  rw [List.length_insertionSort, List.length_map, List.enum_length]

/-- The chunk node-id lists of build_chunks flatten to the identifiers of
the coerced (sorted) working nodes, in both the greedy and the fallback
branch. -/
theorem chunkNodeIds_buildChunks (inputs : List NodeInput) (w : Option Int) :
    chunkNodeIds (buildChunks inputs w) = (coerceNodes inputs).map (·.node_id) := by
  unfold buildChunks chunkNodeIds
  simp only []
  split
  · rw [List.map_map]
    have : ((fun c : Chunk => c.node_ids) ∘ fun p : Nat × SpineNode =>
        ({ chunk_id := "chunk_" ++ toString (p.1 + 1), node_ids := [p.2.node_id],
           span_start := p.2.span_start, span_end := p.2.span_end,
           mass := round6 p.2.mass, excerpt := p.2.text } : Chunk)) =
        (fun p : Nat × SpineNode => [p.2.node_id]) := rfl
    rw [this]
    have h2 : (coerceNodes inputs).enum.map (fun p : Nat × SpineNode => [p.2.node_id]) =
        ((coerceNodes inputs).enum.map Prod.snd).map (fun n => [n.node_id]) := by
      rw [List.map_map]; rfl
    rw [h2, List.enum_map_snd, flatten_map_singleton]
  · rw [List.map_map]
    have : ((fun c : Chunk => c.node_ids) ∘ fun p : Nat × List SpineNode =>
        mkChunk p.1 p.2) = (fun p : Nat × List SpineNode => p.2.map (·.node_id)) := rfl
    rw [this]
    have h2 : ∀ groups : List (List SpineNode),
        groups.enum.map (fun p : Nat × List SpineNode => p.2.map (·.node_id)) =
          (groups.enum.map Prod.snd).map (fun g => g.map (·.node_id)) := by
      intro groups; rw [List.map_map]; rfl
    rw [h2, List.enum_map_snd]
    rw [← List.map_flatten, chunkGroups_flatten]

theorem coerceNodes_map_node_id_perm (inputs : List NodeInput) :
    ((coerceNodes inputs).map (·.node_id)).Perm (inputIds inputs) := by
  unfold coerceNodes inputIds
  have hperm := List.perm_insertionSort nodeLe
    (inputs.enum.map (fun p => coerceOne (p.1 + 1) p.2))
  have h1 := hperm.map (fun n : SpineNode => n.node_id)
  refine h1.trans ?_
  rw [List.map_map]
  have : ((fun n : SpineNode => n.node_id) ∘ fun p : Nat × NodeInput =>
      coerceOne (p.1 + 1) p.2) = (fun p : Nat × NodeInput => inputIdOf (p.1 + 1) p.2) := by
    funext p
    exact coerceOne_node_id _ _
  rw [this]

/-- C1.  For every non-empty input node list (structured SpineNodes or raw
mappings) and any chunking parameters, build_chunks returns a ChunkGraph in
which the multiset union of node_ids across all chunks equals the multiset
of input node identifiers exactly once each: every input node belongs to
exactly one chunk, no node is dropped or duplicated, and no chunk contains
an identifier outside the input. -/
theorem buildChunks_partition (inputs : List NodeInput) (w : Option Int)
    (hne : inputs ≠ []) :
    (↑(chunkNodeIds (buildChunks inputs w)) : Multiset String) =
      (↑(inputIds inputs) : Multiset String) := by
  rw [chunkNodeIds_buildChunks]
  exact Multiset.coe_eq_coe.mpr (coerceNodes_map_node_id_perm inputs)

/-- Concrete instantiation for the partition theorem. -/
def sampleRawA : NodeInput :=
  .raw { text := some "alpha beta", span_start := some 0, span_end := some 10 }

/-- Concrete instantiation for the partition theorem. -/
def sampleRawB : NodeInput :=
  .raw { text := some "alpha beta gamma", span_start := some 12, span_end := some 22 }

/-- Concrete structured node used by witnesses. -/
def sampleNodeC : NodeInput :=
  .structured { node_id := "sec_7", kind := "heading", title := "Delta",
                text := "delta epsilon", span_start := 24, span_end := 37, mass := 2 }

theorem buildChunks_partition_witness :
    [sampleRawA, sampleRawB, sampleNodeC] ≠ ([] : List NodeInput) ∧
      (↑(chunkNodeIds (buildChunks [sampleRawA, sampleRawB, sampleNodeC] none)) :
          Multiset String) =
        (↑(inputIds [sampleRawA, sampleRawB, sampleNodeC]) : Multiset String) :=
  ⟨by simp [sampleRawA], buildChunks_partition _ none (by simp [sampleRawA])⟩

/-- C6.  For every input node list containing fewer than 3 nodes,
build_chunks returns exactly one chunk per input node, even when adjacent
nodes are similar enough that the greedy pass would merge them; the
fallback neither under-merges nor over-merges. -/
theorem buildChunks_short_input (inputs : List NodeInput) (w : Option Int)
    (hshort : inputs.length < 3) :
    (buildChunks inputs w).chunks.length = inputs.length := by
  unfold buildChunks
  simp only []
  rw [← coerceNodes_length inputs]
  set working := coerceNodes inputs with hworking
  set budget := ((w.getD 6).toNat) with hbudget
  have hmin : min 3 working.length = working.length := by
    rw [hworking, coerceNodes_length]
    omega
  split
  · simp
  · rename_i hcond
    rw [hmin] at hcond
    push_neg at hcond
    have hge : working.length ≤
        ((chunkGroups budget working).enum.map (fun p => mkChunk p.1 p.2)).length := by
      by_contra hlt
      push_neg at hlt
      exact absurd (hcond hlt) (by simp)
    have hle : ((chunkGroups budget working).enum.map (fun p => mkChunk p.1 p.2)).length ≤
        working.length := by
      simp only [List.length_map, List.enum_length]
      calc (chunkGroups budget working).length
          ≤ (chunkGroups budget working).flatten.length :=
            length_le_length_flatten _ (chunkGroups_ne_nil budget working)
        _ = working.length := by rw [chunkGroups_flatten]
    omega

theorem buildChunks_short_input_witness :
    ([sampleRawA, sampleRawB] : List NodeInput).length < 3 ∧
      (buildChunks [sampleRawA, sampleRawB] none).chunks.length =
        ([sampleRawA, sampleRawB] : List NodeInput).length :=
  ⟨by decide, buildChunks_short_input [sampleRawA, sampleRawB] none (by decide)⟩

theorem strength_eq_zero_of_disjoint (current cand : SpineNode)
    (htok : tokenize current.text ∩ tokenize cand.text = ∅ ∨
      tokenize current.text = ∅ ∨ tokenize cand.text = ∅) :
    strength current cand = 0 := by
  unfold strength
  rcases htok with h | h | h
  · by_cases hl : tokenize current.text = ∅
    · simp [hl]
    · by_cases hr : tokenize cand.text = ∅
      · simp [hr]
      · simp only [hl, hr, or_self, if_neg, false_or, if_false]
        rw [h]
        simp
  · simp [h]
  · simp [h]

theorem threshold_pos (current cand : SpineNode)
    (hm1 : 0 ≤ current.mass) (hm2 : 0 ≤ cand.mass) :
    0 < threshold current cand := by
  unfold threshold
  have h1 : (0 : Rat) < 0.02 := by norm_num
  have h2 : (0 : Rat) ≤ 0.015 * ((current.mass + cand.mass) / 2) := by
    have : (0 : Rat) ≤ current.mass + cand.mass := by linarith
    positivity
  linarith

/-- C8.  In the greedy merge pass of build_chunks, a candidate node whose
text shares no token with the current chunk tail (or where either text has
no tokens) is never absorbed: the merge strength is 0 and the threshold
0.02 + 0.015 * avg_mass is strictly positive for any non-negative masses,
so the two nodes end up in separate chunks even when the candidate lies
inside the look-ahead window. -/
theorem disjoint_nodes_never_merge (current cand : SpineNode)
    (hm1 : 0 ≤ current.mass) (hm2 : 0 ≤ cand.mass)
    (htok : tokenize current.text ∩ tokenize cand.text = ∅ ∨
      tokenize current.text = ∅ ∨ tokenize cand.text = ∅) :
    strength current cand = 0 ∧ 0 < threshold current cand ∧
      mergeOk current cand = false ∧
      ∀ (budget : Nat) (l g pre post : List SpineNode),
        g ∈ chunkGroups budget l → g ≠ pre ++ current :: cand :: post := by
  have hs := strength_eq_zero_of_disjoint current cand htok
  have ht := threshold_pos current cand hm1 hm2
  have hmerge : mergeOk current cand = false := by
    unfold mergeOk
    rw [hs]
    exact decide_eq_false (not_le.mpr ht)
  refine ⟨hs, ht, hmerge, ?_⟩
  intro budget l g pre post hg heq
  have hchain := chunkGroups_chain budget l g hg
  rw [heq] at hchain
  have h2 := (List.chain'_append.mp hchain).2.1
  have h3 := (List.chain'_cons.mp h2).1
  rw [hmerge] at h3
  exact Bool.false_ne_true h3

/-- Disjoint-text nodes used to instantiate the no-merge theorem. -/
def sepNodeA : SpineNode :=
  { node_id := "a1", kind := "paragraph", title := "", text := "alpha beta",
    span_start := 0, span_end := 10, mass := 1 }

/-- Disjoint-text nodes used to instantiate the no-merge theorem. -/
def sepNodeB : SpineNode :=
  { node_id := "b1", kind := "paragraph", title := "", text := "gamma delta",
    span_start := 12, span_end := 23, mass := 1 }

theorem disjoint_nodes_never_merge_witness :
    (0 ≤ sepNodeA.mass ∧ 0 ≤ sepNodeB.mass ∧
        tokenize sepNodeA.text ∩ tokenize sepNodeB.text = ∅) ∧
      strength sepNodeA sepNodeB = 0 ∧ 0 < threshold sepNodeA sepNodeB ∧
        mergeOk sepNodeA sepNodeB = false ∧
        ∀ (budget : Nat) (l g pre post : List SpineNode),
          g ∈ chunkGroups budget l → g ≠ pre ++ sepNodeA :: sepNodeB :: post :=
  ⟨⟨by decide, by decide, by decide⟩,
    disjoint_nodes_never_merge sepNodeA sepNodeB (by decide) (by decide)
      (Or.inl (by decide))⟩

/-- C9.  Implicit: for every query string and every integer k, rank_chunks
applied to a ChunkGraph whose chunk list is empty returns the empty list
(zero hits) without raising, so the lower bound of at least one returned
hit holds only when the graph contains at least one chunk. -/
theorem rankChunks_empty_graph (params : ChunkParams) (query : String) (k : Int) :
    rankChunks { chunks := [], params := params } query k = [] := by
  simp [rankChunks]

/-- Counterexample to C7 as stated: on a ChunkGraph whose chunk list is
empty, rank_chunks with the empty query and k = 3 returns zero hits, not
at least one. -/
theorem rankChunks_lower_bound_fails :
    (rankChunks { chunks := [], params := { window := 6, merge := "mass_strength_naive" } }
        "" 3).length = 0 ∧
      ¬(1 ≤ (rankChunks
          { chunks := [], params := { window := 6, merge := "mass_strength_naive" } }
          "" 3).length) := by
  constructor
  · simp [rankChunks]
  · intro h
    simp [rankChunks] at h

/-- C7 (amended).  For every ChunkGraph with at least one chunk and every
integer k, rank_chunks called with the empty query never raises: the empty
query is replaced by the single token "contract", and the call returns
between 1 and max(1, k) ChunkHits even when no chunk shares any token with
the fallback query.  (On an empty graph the call returns zero hits.) -/
theorem rankChunks_bounds (g : ChunkGraph) (k : Int)
    (hne : g.chunks ≠ []) :
    1 ≤ (rankChunks g "" k).length ∧
      ((rankChunks g "" k).length : Int) ≤ max 1 k := by
  have hlen : (rankChunks g "" k).length =
      min (max 1 k).toNat g.chunks.length := by
    unfold rankChunks
    rw [List.length_take, List.length_insertionSort, List.length_map]
  have hchunks : 1 ≤ g.chunks.length := List.length_pos.mpr hne
  have hk : 1 ≤ (max 1 k).toNat := by
    have : (1 : Int) ≤ max 1 k := le_max_left 1 k
    omega
  constructor
  · rw [hlen]
    omega
  · rw [hlen]
    have h2 : (1 : Int) ≤ max 1 k := le_max_left 1 k
    omega

/-- A one-chunk graph used to instantiate the ranking bounds. -/
def oneChunkGraph : ChunkGraph :=
  { chunks := [{ chunk_id := "chunk_1", node_ids := ["n1"], span_start := 0,
                 span_end := 9, mass := 1, excerpt := "alpha beta" }],
    params := { window := 6, merge := "mass_strength_naive" } }

theorem rankChunks_bounds_witness :
    oneChunkGraph.chunks ≠ [] ∧
      (1 ≤ (rankChunks oneChunkGraph "" 3).length ∧
        ((rankChunks oneChunkGraph "" 3).length : Int) ≤ max 1 3) :=
  ⟨by simp [oneChunkGraph], rankChunks_bounds oneChunkGraph 3 (by simp [oneChunkGraph])⟩

/-! ### Mock routing engine (tools/mock_router.py)

The fixed regex pattern tables of the router are embedded as values of a
small regex language covering exactly the constructs those patterns use:
literals, character classes, alternation, greedy option and word
boundaries.  Matching follows Python re semantics: leftmost match,
alternatives tried in order, greedy option, non-overlapping findall scan.
IGNORECASE is modelled by lower-casing the subject text, which agrees with
Python on the ASCII patterns involved. -/

/-- The regex fragment language used by the router's pattern tables. -/
inductive Re where
  | eps : Re
  | chs : List Char → Re
  | seq : Re → Re → Re
  | alt : Re → Re → Re
  | opt : Re → Re
  | wb : Re
  deriving Repr

/-- Python word characters (ASCII range) for the \b boundary. -/
def isWordChar (c : Char) : Bool :=
  (('a' ≤ c && c ≤ 'z') || ('A' ≤ c && c ≤ 'Z') || ('0' ≤ c && c ≤ '9') || c = '_')

/-- Backtracking matcher in continuation style.  rest is the unread input,
prev the character just before it (for word boundaries); the continuation
receives the input left after this fragment.  Alternatives and the greedy
option try their first branch first, giving Python's match priority. -/
def Re.mrun {α : Type} : Re → List Char → Option Char →
    (List Char → Option Char → Option α) → Option α
  | .eps, rest, prev, k => k rest prev
  | .chs cs, rest, _, k =>
    match rest with
    | [] => none
    | c :: rs => if cs.contains c then k rs (some c) else none
  | .seq r1 r2, rest, prev, k =>
    r1.mrun rest prev (fun rs p => r2.mrun rs p k)
  | .alt r1 r2, rest, prev, k =>
    match r1.mrun rest prev k with
    | some v => some v
    | none => r2.mrun rest prev k
  | .opt r, rest, prev, k =>
    match r.mrun rest prev k with
    | some v => some v
    | none => k rest prev
  | .wb, rest, prev, k =>
    let before := match prev with | none => false | some c => isWordChar c
    let after := match rest with | [] => false | c :: _ => isWordChar c
    if before ≠ after then k rest prev else none

/-- Non-overlapping findall scan: at each position try a match; on success
count it and resume after the matched text, otherwise advance one
character.  fuel bounds the scan by the input length. -/
def countAux (re : Re) : Nat → List Char → Option Char → Nat
  | 0, _, _ => 0
  | fuel + 1, rest, prev =>
    match re.mrun rest prev (fun rs p => some (rs, p)) with
    | some (rs, p) =>
      if rs.length < rest.length then 1 + countAux re fuel rs p
      else
        match rest with
        | [] => 1
        | c :: rs2 => 1 + countAux re fuel rs2 (some c)
    | none =>
      match rest with
      | [] => 0
      | c :: rs2 => countAux re fuel rs2 (some c)

/-- Embedding of _count: len(re.findall(pattern, text, IGNORECASE)). -/
def countMatches (re : Re) (s : String) : Nat :=
  countAux re (s.length + 1) (s.data.map lowerChar) none

/-- Embedding of pattern.search(text) ≠ None under IGNORECASE. -/
def reFound (re : Re) (s : String) : Bool :=
  countMatches re s ≠ 0

/-- A literal string pattern. -/
def reLit (s : String) : Re :=
  s.data.foldr (fun c acc => Re.seq (.chs [c]) acc) .eps

/-- A whole-word literal: \b literal \b. -/
def reWord (s : String) : Re := .seq .wb (.seq (reLit s) .wb)

/-- Ordered alternation of a non-empty list of fragments. -/
def reAlts : List Re → Re
  | [] => .eps
  | [r] => r
  | r :: rs => .alt r (reAlts rs)

/-- \b(a|b|...)\b around an ordered alternation. -/
def reWordAlts (ws : List Re) : Re := .seq .wb (.seq (reAlts ws) .wb)

/-- The recognized doc types, in table order (mock_router.py DOC_TYPES). -/
def docTypes : List String := ["nda", "msa", "credit_agreement", "loan_agreement"]

/-- The recognized modes (mock_router.py MODES). -/
def modes : List String := ["overview", "precision"]

/-- _DOC_PATTERNS: the per-doc-type keyword pattern sets, in table order. -/
def docPatterns : List (String × List Re) :=
  [("nda",
    [reWord "nda",
     .seq .wb (.seq (reLit "non")
       (.seq (.opt (.chs ['-', ' '])) (.seq (reLit "disclosure") .wb))),
     reWord "confidential information",
     reWord "disclosing party",
     reWord "receiving party"]),
   ("msa",
    [reWord "msa",
     .seq .wb (.seq (reLit "master service")
       (.seq (.opt (.chs ['s'])) (.seq (reLit " agreement") .wb))),
     reWord "statement of work",
     reWord "sow",
     .seq .wb (.seq (reLit "service level") (.seq (.opt (.chs ['s'])) .wb)),
     reWord "change order"]),
   ("credit_agreement",
    [reWord "credit agreement",
     .seq .wb (.seq (reLit "revolving ")
       (.seq (.opt (reLit "credit ")) (.seq (reLit "facility") .wb))),
     reWord "conditions precedent",
     .seq .wb (.seq (reLit "financial covenant") (.seq (.opt (.chs ['s'])) .wb)),
     .seq .wb (.seq (reLit "event")
       (.seq (.opt (.chs ['s'])) (.seq (reLit " of default") .wb))),
     reWord "cross default",
     reWord "administrative agent",
     reWord "security interest",
     reWord "collateral"]),
   ("loan_agreement",
    [reWord "loan agreement",
     reWord "term loan",
     reWord "principal amount",
     .seq .wb (.seq (reLit "amorti") (.seq (.chs ['s', 'z']) (.seq (reLit "ation") .wb))),
     reWord "repayment schedule",
     reWord "maturity date",
     reWord "promissory note",
     .seq .wb (.seq (reLit "installment") (.seq (.opt (.chs ['s'])) .wb)),
     .seq .wb (.seq (reLit "guarant") (.seq (.alt (reLit "y") (reLit "ee")) .wb))])]

/-- _QUERY_MODE_PATTERNS["precision"]. -/
def precisionQueryRe : Re :=
  reWordAlts [reLit "quote", reLit "citation", reLit "cite", reLit "span",
    reLit "compare", reLit "baseline", reLit "diff", reLit "deviation",
    reLit "gap", reLit "evidence", reLit "pinpoint"]

/-- _QUERY_MODE_PATTERNS["overview"]. -/
def overviewQueryRe : Re :=
  reWordAlts [reLit "summary", reLit "summarize", reLit "overview",
    .seq (reLit "high") (.seq (.opt (.chs ['-', ' '])) (reLit "level")),
    reLit "quick scan"]

/-- _QUERY_PROFILE_PATTERNS["obligation_probe"]. -/
def obligationQueryRe : Re :=
  reWordAlts [reLit "obligation", reLit "shall", reLit "must",
    reLit "covenant", reLit "duty", reLit "payment"]

/-- _QUERY_PROFILE_PATTERNS["playbook_diff"]. -/
def playbookQueryRe : Re :=
  reWordAlts [reLit "compare", reLit "baseline", reLit "diff",
    reLit "deviation", reLit "risk", reLit "missing", reLit "required"]

/-- _FINANCE_TERMS. -/
def financeTermsRe : Re :=
  reWordAlts [reLit "borrower", reLit "lender", reLit "interest",
    reLit "principal",
    .seq (reLit "event") (.seq (.opt (.chs ['s'])) (reLit " of default")),
    reLit "covenant", reLit "collateral", reLit "security interest",
    reLit "acceleration"]

/-- The credit-specific secondary vote terms (mock_router.py line 102). -/
def creditVoteRe : Re :=
  reWordAlts [reLit "conditions precedent",
    .seq (reLit "financial covenant") (.opt (.chs ['s'])),
    reLit "administrative agent", reLit "revolving"]

/-- The loan-specific secondary vote terms (mock_router.py line 103). -/
def loanVoteRe : Re :=
  reWordAlts [reLit "term loan", reLit "amortization",
    reLit "repayment schedule", reLit "maturity date", reLit "promissory note"]

/-- Credit-term count of the secondary tie-break vote. -/
def creditTermCount (s : String) : Nat := countMatches creditVoteRe s

/-- Loan-term count of the secondary tie-break vote. -/
def loanTermCount (s : String) : Nat := countMatches loanVoteRe s

/-- The concatenation query \n text scored by the keyword scan. -/
def searchText (query text : String) : String := query ++ "\n" ++ text

/-- The per-doc-type keyword scores (sum of pattern hit counts). -/
def keywordScores (s : String) : List (String × Rat) :=
  docPatterns.map (fun p => (p.1, ((p.2.map (fun re => countMatches re s)).sum : Nat)))

/-- Descending stable order on scores (Python sorted(..., reverse=True)). -/
def scoreGe (a b : String × Rat) : Prop := b.2 ≤ a.2

instance scoreGe.instDecidable : DecidableRel scoreGe := fun a b => by
  unfold scoreGe
  infer_instance

/-- The candidates ranked by descending score, ties in table order. -/
def rankedScores (s : String) : List (String × Rat) :=
  List.insertionSort scoreGe (keywordScores s)

/-- Python format %.1f for the non-negative scores in reason strings. -/
def formatFix1 (x : Rat) : String :=
  let m : Int := roundHalfEven (x * 10)
  toString (m / 10) ++ "." ++ toString (m % 10)

/-- Embedding of _select_doc_type (mock_router.py lines 78-111). -/
def selectDocType (requestedDocType query text : String) :
    String × List (String × Rat) × List String :=
  let normalized := strLower requestedDocType
  if normalized ∈ docTypes then
    (normalized, [(normalized, 1)], ["doc_type explicitly provided"])
  else
    let s := searchText query text
    let scores := keywordScores s
    let ranked := rankedScores s
    let topDoc := (ranked.headD ("", 0)).1
    let topScore := (ranked.headD ("", 0)).2
    let secondScore := (ranked.getD 1 ("", 0)).2
    if topScore = 0 then
      ("nda", scores, ["no doc-type keywords found; defaulting to nda"])
    else if (topDoc = "credit_agreement" ∨ topDoc = "loan_agreement") ∧
        |topScore - secondScore| ≤ 1 then
      if loanTermCount s ≤ creditTermCount s then
        ("credit_agreement", scores, ["finance tie-breaker chose credit_agreement"])
      else
        ("loan_agreement", scores, ["finance tie-breaker chose loan_agreement"])
    else
      (topDoc, scores,
        ["doc_type selected by keyword score (" ++ topDoc ++ "=" ++
          formatFix1 topScore ++ ")"])

/-- Embedding of _select_mode (mock_router.py lines 114-137). -/
def selectMode (requestedMode docType query text : String) : String × List String :=
  let normalized := strLower requestedMode
  if normalized ∈ modes then (normalized, ["mode explicitly provided"])
  else if reFound precisionQueryRe query then
    ("precision", ["query contains precision/evidence keywords"])
  else if reFound overviewQueryRe query then
    ("overview", ["query contains overview keywords"])
  else if docType = "credit_agreement" ∨ docType = "loan_agreement" then
    ("precision", ["finance doc type defaults to precision"])
  else if 3 ≤ countMatches financeTermsRe text then
    ("precision", ["document has dense risk/finance signals"])
  else ("overview", ["defaulting to overview"])

/-- Embedding of _select_profile (mock_router.py lines 140-163). -/
def selectProfile (mode query text : String) : String × List String :=
  if mode = "overview" then
    if reFound obligationQueryRe query then
      ("obligation_probe", ["overview + obligation query => obligation_probe"])
    else ("classification_only", ["overview default => classification_only"])
  else if reFound playbookQueryRe query then
    ("playbook_diff", ["precision + compare/risk query => playbook_diff"])
  else if reFound obligationQueryRe query then
    ("obligation_probe", ["precision + obligation query => obligation_probe"])
  else if 4 ≤ countMatches financeTermsRe text then
    ("playbook_diff", ["precision + risk-dense doc => playbook_diff"])
  else ("obligation_probe", ["precision default => obligation_probe"])

/-- Python round(x, 3) on the embedded rationals. -/
def round3 (x : Rat) : Rat := (roundHalfEven (x * 1000) : Rat) / 1000

/-- Embedding of the routing decision record returned by decide_mock_flow. -/
structure RoutingDecision where
  query : String
  doc_type_scores : List (String × Rat)
  doc_type : String
  mode : String
  subtree_profile : String
  reasons : List String
  confidence : Rat
  deriving Repr, DecidableEq

/-- Embedding of decide_mock_flow (mock_router.py lines 166-192). -/
def decideMockFlow (query : Option String) (documentText : String)
    (requestedMode : String) (requestedDocType : String) : RoutingDecision :=
  let safeQuery := strStrip (query.getD "")
  let safeText := strStrip documentText
  let d := selectDocType requestedDocType safeQuery safeText
  let m := selectMode requestedMode d.1 safeQuery safeText
  let p := selectProfile m.1 safeQuery safeText
  let sortedScores := List.insertionSort scoreGe d.2.1
  let top := (sortedScores.headD ("", 0)).2
  let second := (sortedScores.getD 1 ("", 0)).2
  let confidence : Rat :=
    if top = 0 then 0.65 else min 0.97 (0.70 + ((top - second) / max 1 top) * 0.2)
  { query := safeQuery
    doc_type_scores := sortedScores
    doc_type := d.1
    mode := m.1
    subtree_profile := p.1
    reasons := d.2.2 ++ m.2 ++ p.2
    confidence := round3 confidence }

/-- Counterexample to C3 as stated: with an explicit recognized doc type
the engine does return that doc type, but the reported confidence is 0.9,
not 1.0 (the score table carries 1.0, and the confidence formula
min(0.97, 0.70 + 0.20 * margin) turns it into 0.9). -/
theorem decideMockFlow_confidence_not_one :
    (decideMockFlow none "" "auto" "loan_agreement").doc_type = "loan_agreement" ∧
      (decideMockFlow none "" "auto" "loan_agreement").confidence = 9 / 10 ∧
      ¬((decideMockFlow none "" "auto" "loan_agreement").confidence = 1) := by
  have hsel : selectDocType "loan_agreement"
      (strStrip ((none : Option String).getD "")) (strStrip "") =
      ("loan_agreement", [("loan_agreement", 1)], ["doc_type explicitly provided"]) := by
    unfold selectDocType
    rw [if_pos (by decide : strLower "loan_agreement" ∈ docTypes)]
    rfl
  have hconf : (decideMockFlow none "" "auto" "loan_agreement").confidence = 9 / 10 := by
    unfold decideMockFlow
    simp only [hsel, List.insertionSort, List.orderedInsert, List.headD_cons,
      List.getD_cons_succ, List.getD_nil]
    rw [if_neg (by norm_num : ¬((1 : Rat) = 0))]
    unfold round3 roundHalfEven
    rw [min_def]
    norm_num
  refine ⟨?_, hconf, ?_⟩
  · unfold decideMockFlow
    simp only [hsel]
  · rw [hconf]
    norm_num

/-- C3 (amended).  For every query and document text, if the caller
supplies a requested_doc_type whose lower-casing is one of the recognized
doc types, decide_mock_flow returns exactly that doc type with the score
table {doc_type: 1.0} and performs no keyword scoring, regardless of
document content — but the reported confidence is 0.9, not 1.0 (the
confidence formula is capped at 0.97 and never reaches certainty). -/
theorem decideMockFlow_explicit_doc_type (query : Option String)
    (text mode dt : String) (hdt : strLower dt ∈ docTypes) :
    (decideMockFlow query text mode dt).doc_type = strLower dt ∧
      (decideMockFlow query text mode dt).doc_type_scores = [(strLower dt, 1)] ∧
      (decideMockFlow query text mode dt).confidence = 9 / 10 := by
  have hsel : selectDocType dt (strStrip (query.getD "")) (strStrip text) =
      (strLower dt, [(strLower dt, 1)], ["doc_type explicitly provided"]) := by
    unfold selectDocType
    rw [if_pos hdt]
  refine ⟨?_, ?_, ?_⟩
  · unfold decideMockFlow
    simp only [hsel]
  · unfold decideMockFlow
    simp only [hsel, List.insertionSort, List.orderedInsert]
  · unfold decideMockFlow
    simp only [hsel, List.insertionSort, List.orderedInsert, List.headD_cons,
      List.getD_cons_succ, List.getD_nil]
    rw [if_neg (by norm_num : ¬((1 : Rat) = 0))]
    unfold round3 roundHalfEven
    rw [min_def]
    norm_num

theorem decideMockFlow_explicit_doc_type_witness :
    strLower "Loan_Agreement" ∈ docTypes ∧
      ((decideMockFlow (some "what are the covenants") "interest shall accrue"
            "auto" "Loan_Agreement").doc_type = strLower "Loan_Agreement" ∧
        (decideMockFlow (some "what are the covenants") "interest shall accrue"
            "auto" "Loan_Agreement").doc_type_scores = [(strLower "Loan_Agreement", 1)] ∧
        (decideMockFlow (some "what are the covenants") "interest shall accrue"
            "auto" "Loan_Agreement").confidence = 9 / 10) :=
  ⟨by decide, decideMockFlow_explicit_doc_type (some "what are the covenants")
    "interest shall accrue" "auto" "Loan_Agreement" (by decide)⟩

/-- A document on which the top two keyword candidates are credit_agreement
and nda, yet the secondary credit/loan vote fires. -/
def voteText : String := "collateral collateral nda maturity date"

/-- Counterexample to C4 as stated: on voteText the two highest-scoring
candidates are credit_agreement (2.0) and nda (1.0) — not credit and loan —
yet the secondary vote is applied (the finance tie-breaker reason is
emitted) and it even overturns the ranking, returning loan_agreement whose
keyword score is only 1.0. -/
theorem selectDocType_vote_without_credit_loan_pair :
    (rankedScores (searchText "" voteText)).getD 0 ("", 0) = ("credit_agreement", 2) ∧
      (rankedScores (searchText "" voteText)).getD 1 ("", 0) = ("nda", 1) ∧
      selectDocType "auto" "" voteText =
        ("loan_agreement",
          [("nda", 1), ("msa", 0), ("credit_agreement", 2), ("loan_agreement", 1)],
          ["finance tie-breaker chose loan_agreement"]) := by
  have hranked : rankedScores (searchText "" voteText) =
      [("credit_agreement", 2), ("nda", 1), ("loan_agreement", 1), ("msa", 0)] := by
    decide
  have hks : keywordScores (searchText "" voteText) =
      [("nda", 1), ("msa", 0), ("credit_agreement", 2), ("loan_agreement", 1)] := by
    decide
  have hcred : creditTermCount (searchText "" voteText) = 0 := by decide
  have hloan : loanTermCount (searchText "" voteText) = 1 := by decide
  refine ⟨by decide, by decide, ?_⟩
  unfold selectDocType
  rw [if_neg (by decide : ¬(strLower "auto" ∈ docTypes))]
  simp only [hranked, hks, List.headD_cons, List.getD_cons_zero, List.getD_cons_succ]
  rw [if_neg (by norm_num : ¬((2 : Rat) = 0))]
  rw [if_pos (show (True ∨ "credit_agreement" = "loan_agreement") ∧ |(2 : Rat) - 1| ≤ 1
    from ⟨Or.inl trivial, by norm_num⟩)]
  rw [if_neg (by rw [hcred, hloan]; decide :
    ¬(loanTermCount (searchText "" voteText) ≤ creditTermCount (searchText "" voteText)))]

theorem head_ne_of_append {p x t : String} {c d : Char}
    (hp : p.data.head? = some c) (ht : t.data.head? = some d) (hcd : c ≠ d) :
    p ++ x ≠ t := by
  intro h
  have hdata : (p ++ x).data = t.data := String.ext_iff.mp h
  rw [String.data_append] at hdata
  cases hpd : p.data with
  | nil => rw [hpd] at hp; exact Option.noConfusion hp
  | cons a l =>
    rw [hpd] at hp
    have ha : a = c := by simpa using hp
    rw [hpd] at hdata
    cases htd : t.data with
    | nil => rw [htd] at ht; exact Option.noConfusion ht
    | cons b m =>
      rw [htd] at ht
      have hb : b = d := by simpa using ht
      rw [htd] at hdata
      have : a = b := (List.cons.injEq _ _ _ _ ▸ hdata).1
      exact hcd (ha ▸ hb ▸ this)

/-- C4 (amended).  When no explicit doc type is supplied and the top
keyword score is nonzero, the secondary credit/loan keyword vote is applied
if and only if the TOP-scoring candidate is credit_agreement or
loan_agreement and the top two scores differ by at most 1.0 — regardless
of which doc type is ranked second; when the vote is applied,
credit_agreement is chosen exactly when the credit-term count ties or
exceeds the loan-term count, else loan_agreement is chosen. -/
theorem selectDocType_tie_break (requested query text td : String) (ts : Rat)
    (hreq : strLower requested ∉ docTypes)
    (htop : (rankedScores (searchText query text)).headD ("", 0) = (td, ts))
    (hts : ¬(ts = 0)) :
    (((selectDocType requested query text).2.2 =
          ["finance tie-breaker chose credit_agreement"] ∨
        (selectDocType requested query text).2.2 =
          ["finance tie-breaker chose loan_agreement"]) ↔
      ((td = "credit_agreement" ∨ td = "loan_agreement") ∧
        |ts - ((rankedScores (searchText query text)).getD 1 ("", 0)).2| ≤ 1)) ∧
    (((td = "credit_agreement" ∨ td = "loan_agreement") ∧
        |ts - ((rankedScores (searchText query text)).getD 1 ("", 0)).2| ≤ 1) →
      (selectDocType requested query text).1 =
        if loanTermCount (searchText query text) ≤ creditTermCount (searchText query text)
        then "credit_agreement" else "loan_agreement") := by
  unfold selectDocType
  rw [if_neg hreq]
  simp only [htop]
  rw [if_neg hts]
  by_cases hcond : (td = "credit_agreement" ∨ td = "loan_agreement") ∧
      |ts - ((rankedScores (searchText query text)).getD 1 ("", 0)).2| ≤ 1
  · rw [if_pos hcond]
    by_cases hvote : loanTermCount (searchText query text) ≤
        creditTermCount (searchText query text)
    · rw [if_pos hvote]
      constructor
      · exact ⟨fun _ => hcond, fun _ => Or.inl rfl⟩
      · intro _
        rw [if_pos hvote]
    · rw [if_neg hvote]
      constructor
      · exact ⟨fun _ => hcond, fun _ => Or.inr rfl⟩
      · intro _
        rw [if_neg hvote]
  · rw [if_neg hcond]
    constructor
    · constructor
      · intro habs
        have hne1 : ("doc_type selected by keyword score (" ++
            (td ++ "=" ++ formatFix1 ts ++ ")")) ≠
            "finance tie-breaker chose credit_agreement" :=
          head_ne_of_append rfl rfl (by decide)
        have hne2 : ("doc_type selected by keyword score (" ++
            (td ++ "=" ++ formatFix1 ts ++ ")")) ≠
            "finance tie-breaker chose loan_agreement" :=
          head_ne_of_append rfl rfl (by decide)
        rcases habs with h | h
        · have := (List.cons.injEq _ _ _ _ ▸ h).1
          exact absurd (by simpa [String.append_assoc] using this) hne1
        · have := (List.cons.injEq _ _ _ _ ▸ h).1
          exact absurd (by simpa [String.append_assoc] using this) hne2
      · intro h
        exact absurd h hcond
    · intro h
      exact absurd h hcond

theorem selectDocType_tie_break_witness :
    (strLower "auto" ∉ docTypes ∧
        (rankedScores (searchText "" voteText)).headD ("", 0) = ("credit_agreement", 2) ∧
        ¬((2 : Rat) = 0)) ∧
      ((((selectDocType "auto" "" voteText).2.2 =
            ["finance tie-breaker chose credit_agreement"] ∨
          (selectDocType "auto" "" voteText).2.2 =
            ["finance tie-breaker chose loan_agreement"]) ↔
        (("credit_agreement" = "credit_agreement" ∨ "credit_agreement" = "loan_agreement") ∧
          |(2 : Rat) - ((rankedScores (searchText "" voteText)).getD 1 ("", 0)).2| ≤ 1)) ∧
      ((("credit_agreement" = "credit_agreement" ∨ "credit_agreement" = "loan_agreement") ∧
          |(2 : Rat) - ((rankedScores (searchText "" voteText)).getD 1 ("", 0)).2| ≤ 1) →
        (selectDocType "auto" "" voteText).1 =
          if loanTermCount (searchText "" voteText) ≤ creditTermCount (searchText "" voteText)
          then "credit_agreement" else "loan_agreement")) :=
  ⟨⟨by decide, by decide, by decide⟩,
    selectDocType_tie_break "auto" "" voteText "credit_agreement" 2
      (by decide) (by decide) (by decide)⟩

/-! ### Template DAG runner (tools/dag_runner.py)

The execution engine is embedded with the tool registry as a parameter: the
spec names the registry an external collaborator contract (a mapping from
tool name to output key and runner), and the concrete runners bound in the
source (spine_builder, clause_classifier, ...) are excluded collaborators.
Context values are modelled by a Python-value universe.  The unbounded
depth-first recursion of execute_step is modelled by a worklist function
with explicit fuel (one unit per processed step id); every terminating run
of the source is a run of the embedding with enough fuel, and every theorem
is conditioned only on successful termination. -/

/-- A Python value as stored in the execution context. -/
inductive Value where
  | pynone : Value
  | bool (b : Bool) : Value
  | int (n : Int) : Value
  | num (q : Rat) : Value
  | str (s : String) : Value
  | list (items : List Value) : Value
  | dict (fields : List (String × Value)) : Value

/-- The trace's result cardinality: list length, or 1 for scalars. -/
def resultCount : Value → Nat
  | .list items => items.length
  | _ => 1

/-- The execution context: an insertion-ordered string-keyed mapping. -/
abbrev Ctx := List (String × Value)

/-- First-match association lookup (Python dict keys are unique). -/
def assocLookup {β : Type} : List (String × β) → String → Option β
  | [], _ => none
  | (k, v) :: rest, key => if k = key then some v else assocLookup rest key

/-- dict assignment context[key] = value: replace in place or append. -/
def ctxSet : Ctx → String → Value → Ctx
  | [], k, v => [(k, v)]
  | (k', v') :: rest, k, v =>
    if k' = k then (k, v) :: rest else (k', v') :: ctxSet rest k v

theorem assocLookup_ctxSet_self (ctx : Ctx) (k : String) (v : Value) :
    assocLookup (ctxSet ctx k v) k = some v := by
  induction ctx with
  | nil => simp [ctxSet, assocLookup]
  | cons p rest ih =>
    by_cases h : p.1 = k
    · simp [ctxSet, h, assocLookup]
    · simp [ctxSet, h, assocLookup, ih]

theorem assocLookup_ctxSet_ne (ctx : Ctx) (k k' : String) (v : Value)
    (hne : ¬(k = k')) : assocLookup (ctxSet ctx k v) k' = assocLookup ctx k' := by
  induction ctx with
  | nil => simp [ctxSet, assocLookup, hne]
  | cons p rest ih =>
    by_cases h : p.1 = k
    · simp [ctxSet, h, assocLookup, hne]
    · simp only [ctxSet, if_neg h]
      by_cases h2 : p.1 = k'
      · simp [assocLookup, h2]
      · simp [assocLookup, h2, ih]

/-- Embedding of a template step node: id, bound tool name and dependency
list (tools/dag_runner.py; templates are the external configuration). -/
structure StepNode where
  id : String
  tool : Option String
  depends_on : List String
  deriving Repr, DecidableEq

/-- Embedding of the loaded template mapping. -/
structure Template where
  template_id : Option String
  doc_type : Option String
  nodes : List StepNode
  routing : List (String × List String)
  citation_policy : Value

/-- One record of the execution trace. -/
structure TraceEntry where
  step_id : String
  tool : String
  output_key : String
  depends_on : List String
  result_count : Nat
  deriving Repr, DecidableEq

/-- The mutable run state threaded through execute_step. -/
structure RunState where
  context : Ctx
  visited : List String
  trace : List TraceEntry

/-- The configuration errors run_template_dag raises, plus the fuel
exhaustion artifact standing in for unbounded recursion. -/
inductive DagError where
  | modeNotDefined (mode : String)
  | unknownStep (step_id : String)
  | noToolBinding (tool : Option String)
  | outOfFuel
  deriving Repr, DecidableEq

/-- A tool registry entry: declared output key and runner over the context
(the TOOL_REGISTRY collaborator contract). -/
structure ToolBinding where
  output_key : String
  runner : Ctx → Value

/-- The registry: tool name to binding (None for unregistered names). -/
abbrev Registry := String → Option ToolBinding

/-- nodes_by_id = {node["id"]: node for node in nodes}: later duplicate ids
override earlier ones. -/
def nodesById (nodes : List StepNode) (stepId : String) : Option StepNode :=
  (nodes.filter (fun n => n.id = stepId)).getLast?

/-- The ids of the trace, in execution order. -/
def traceIds (tr : List TraceEntry) : List String := tr.map (·.step_id)

/-- Checks that every entry's declared dependencies occur among strictly
earlier trace entries (seen accumulates the ids already passed). -/
def depsBeforeAux (seen : List String) : List TraceEntry → Bool
  | [] => true
  | e :: rest =>
    e.depends_on.all (fun d => seen.contains d) &&
      depsBeforeAux (seen ++ [e.step_id]) rest

/-- Embedding of execute_step (tools/dag_runner.py lines 90-122) together
with its two call sites (the dependency loop and the requested-step loop):
process a worklist left to right; for each not-yet-visited step resolve its
dependencies depth-first, then run the bound tool, store the result under
the tool's output key, mark the step visited and append the trace record.
Errors propagate immediately, aborting the whole run. -/
def executeSteps (reg : Registry) (nbi : String → Option StepNode) :
    Nat → List String → RunState → Except (DagError × RunState) RunState
  | _, [], st => .ok st
  | 0, _ :: _, st => .error (.outOfFuel, st)
  | fuel + 1, stepId :: rest, st =>
    if stepId ∈ st.visited then executeSteps reg nbi fuel rest st
    else
      match nbi stepId with
      | none => .error (.unknownStep stepId, st)
      | some node =>
        match executeSteps reg nbi fuel node.depends_on st with
        | .error e => .error e
        | .ok st1 =>
          match node.tool with
          | none => .error (.noToolBinding none, st1)
          | some toolName =>
            match reg toolName with
            | none => .error (.noToolBinding (some toolName), st1)
            | some binding =>
              let result := binding.runner st1.context
              let st2 : RunState :=
                { context := ctxSet st1.context binding.output_key result
                  visited := stepId :: st1.visited
                  trace := st1.trace ++
                    [{ step_id := stepId
                       tool := toolName
                       output_key := binding.output_key
                       depends_on := node.depends_on
                       result_count := resultCount result }] }
              executeSteps reg nbi fuel rest st2

/-- execute_step on a single requested id. -/
def executeStep (reg : Registry) (nbi : String → Option StepNode)
    (fuel : Nat) (stepId : String) (st : RunState) :
    Except (DagError × RunState) RunState :=
  executeSteps reg nbi fuel [stepId] st

/-- The run result record of run_template_dag. -/
structure RunOutput where
  template_id : Option String
  doc_type : Option String
  mode : String
  selected_steps : List String
  template_route_steps : List String
  citation_policy : Value
  executed_steps : List String
  trace : List TraceEntry
  context : Ctx

/-- selected_steps = requested_steps if requested_steps else
template_route_steps (None or an empty list falls back to the route). -/
def selectedStepsOf (templateRouteSteps : List String) :
    Option (List String) → List String
  | some l => if l.isEmpty then templateRouteSteps else l
  | none => templateRouteSteps

/-- Embedding of run_template_dag (tools/dag_runner.py lines 69-134): check
the mode against the routing table, pick the requested steps (falling back
to the template route when none or an empty list is requested), execute
them over a copy of the caller's context, and return the result record.  A
raised error yields no output at all. -/
def runTemplateDag (reg : Registry) (tpl : Template) (mode : String)
    (initialContext : Ctx) (requestedSteps : Option (List String))
    (fuel : Nat) : Except DagError RunOutput :=
  match assocLookup tpl.routing mode with
  | none => .error (.modeNotDefined mode)
  | some templateRouteSteps =>
    match executeSteps reg (nodesById tpl.nodes) fuel
        (selectedStepsOf templateRouteSteps requestedSteps)
        { context := initialContext, visited := [], trace := [] } with
    | .error e => .error e.1
    | .ok st =>
      .ok { template_id := tpl.template_id
            doc_type := tpl.doc_type
            mode := mode
            selected_steps := selectedStepsOf templateRouteSteps requestedSteps
            template_route_steps := templateRouteSteps
            citation_policy := tpl.citation_policy
            executed_steps := st.trace.map (·.step_id)
            trace := st.trace
            context := st.context }

/-- The trace of a successful run ([] for a failed one). -/
def runTrace (reg : Registry) (tpl : Template) (mode : String)
    (initialContext : Ctx) (requestedSteps : Option (List String))
    (fuel : Nat) : List TraceEntry :=
  match runTemplateDag reg tpl mode initialContext requestedSteps fuel with
  | .ok o => o.trace
  | .error _ => []

/-- The final context of a successful run ([] for a failed one). -/
def runContext (reg : Registry) (tpl : Template) (mode : String)
    (initialContext : Ctx) (requestedSteps : Option (List String))
    (fuel : Nat) : Ctx :=
  match runTemplateDag reg tpl mode initialContext requestedSteps fuel with
  | .ok o => o.context
  | .error _ => []

/-- The error of a failed low-level execution, with its state discarded. -/
def stepsErr (r : Except (DagError × RunState) RunState) : Option DagError :=
  match r with
  | .error (e, _) => some e
  | .ok _ => none

/-- How many trace records the engine had accumulated when it raised. -/
def stepsErrTraceLength (r : Except (DagError × RunState) RunState) : Nat :=
  match r with
  | .error (_, st) => st.trace.length
  | .ok _ => 0

/-- The error of a failed run. -/
def runErr (r : Except DagError RunOutput) : Option DagError :=
  match r with
  | .error e => some e
  | .ok _ => none

/-- Every visited id has a known node all of whose dependencies are
visited; this closure holds at every call boundary of execute_step. -/
def ClosedState (nbi : String → Option StepNode) (st : RunState) : Prop :=
  ∀ s ∈ st.visited, ∃ node, nbi s = some node ∧ ∀ d ∈ node.depends_on, d ∈ st.visited

/-- Reflexive-transitive dependency reachability in the template graph. -/
inductive Reaches (nbi : String → Option StepNode) : String → String → Prop
  | refl (s : String) : Reaches nbi s s
  | step {s d t : String} {node : StepNode} :
      nbi s = some node → d ∈ node.depends_on → Reaches nbi d t → Reaches nbi s t

theorem visited_of_reaches {nbi : String → Option StepNode} {st : RunState}
    (hcl : ClosedState nbi st) {y z : String} (hr : Reaches nbi y z)
    (hy : y ∈ st.visited) : z ∈ st.visited := by
  induction hr with
  | refl => exact hy
  | step hs hd _ ih =>
    obtain ⟨node', hn', hdeps⟩ := hcl _ hy
    rw [hs] at hn'
    injection hn' with h
    subst h
    exact ih (hdeps _ hd)

/-- The state produced by completing one step: context written at the
binding's output key, step marked visited, trace record appended. -/
def stepState (stepId : String) (node : StepNode) (toolName : String)
    (binding : ToolBinding) (st1 : RunState) : RunState :=
  { context := ctxSet st1.context binding.output_key (binding.runner st1.context)
    visited := stepId :: st1.visited
    trace := st1.trace ++
      [{ step_id := stepId
         tool := toolName
         output_key := binding.output_key
         depends_on := node.depends_on
         result_count := resultCount (binding.runner st1.context) }] }

section ExecutionInvariants

variable {reg : Registry} {nbi : String → Option StepNode}

theorem executeSteps_nil_ok {fuel : Nat} {st st' : RunState}
    (h : executeSteps reg nbi fuel [] st = .ok st') : st' = st := by
  cases fuel <;> (simp only [executeSteps] at h; injection h with h; exact h.symm)

/-- Dissection of a successful worklist step: either the head was already
visited and the tail ran unchanged, or the head's dependencies resolved,
its tool ran, and the tail ran from the completed state. -/
theorem executeSteps_cons_ok {fuel : Nat} {stepId : String} {rest : List String}
    {st st' : RunState}
    (h : executeSteps reg nbi (fuel + 1) (stepId :: rest) st = .ok st') :
    (stepId ∈ st.visited ∧ executeSteps reg nbi fuel rest st = .ok st') ∨
      (stepId ∉ st.visited ∧ ∃ node toolName binding st1,
        nbi stepId = some node ∧ node.tool = some toolName ∧
          reg toolName = some binding ∧
          executeSteps reg nbi fuel node.depends_on st = .ok st1 ∧
          executeSteps reg nbi fuel rest
            (stepState stepId node toolName binding st1) = .ok st') := by
  rw [executeSteps] at h
  by_cases hv : stepId ∈ st.visited
  · rw [if_pos hv] at h
    exact Or.inl ⟨hv, h⟩
  · rw [if_neg hv] at h
    refine Or.inr ⟨hv, ?_⟩
    split at h
    · exact absurd h (by simp)
    · rename_i node hn
      split at h
      · exact absurd h (by simp)
      · rename_i st1 hdep
        split at h
        · exact absurd h (by simp)
        · rename_i toolName htool
          split at h
          · exact absurd h (by simp)
          · rename_i binding hreg
            exact ⟨node, toolName, binding, st1, hn, htool, hreg, hdep, h⟩

theorem executeSteps_mono {fuel : Nat} :
    ∀ {ds : List String} {st st' : RunState},
      executeSteps reg nbi fuel ds st = .ok st' →
        (∀ s ∈ st.visited, s ∈ st'.visited) ∧ ∃ tr, st'.trace = st.trace ++ tr := by
  induction fuel with
  | zero =>
    intro ds st st' h
    cases ds with
    | nil =>
      cases executeSteps_nil_ok h
      exact ⟨fun s hs => hs, [], by simp⟩
    | cons d rest => simp [executeSteps] at h
  | succ fuel ih =>
    intro ds st st' h
    cases ds with
    | nil =>
      cases executeSteps_nil_ok h
      exact ⟨fun s hs => hs, [], by simp⟩
    | cons stepId rest =>
      rcases executeSteps_cons_ok h with ⟨_, htail⟩ |
        ⟨_, node, toolName, binding, st1, _, _, _, hdep, htail⟩
      · exact ih htail
      · obtain ⟨hm1, tr1, htr1⟩ := ih hdep
        obtain ⟨hm2, tr2, htr2⟩ := ih htail
        refine ⟨fun s hs => ?_, ?_⟩
        · exact hm2 s (List.mem_cons_of_mem _ (hm1 s hs))
        · refine ⟨tr1 ++
            [{ step_id := stepId, tool := toolName, output_key := binding.output_key,
               depends_on := node.depends_on,
               result_count := resultCount (binding.runner st1.context) }] ++ tr2, ?_⟩
          rw [htr2]
          simp [stepState, htr1]

theorem executeSteps_processed {fuel : Nat} :
    ∀ {ds : List String} {st st' : RunState},
      executeSteps reg nbi fuel ds st = .ok st' → ∀ d ∈ ds, d ∈ st'.visited := by
  induction fuel with
  | zero =>
    intro ds st st' h d hd
    cases ds with
    | nil => simp at hd
    | cons x rest => simp [executeSteps] at h
  | succ fuel ih =>
    intro ds st st' h d hd
    cases ds with
    | nil => simp at hd
    | cons stepId rest =>
      rcases executeSteps_cons_ok h with ⟨hv, htail⟩ |
        ⟨_, node, toolName, binding, st1, _, _, _, _, htail⟩
      · rcases List.mem_cons.mp hd with rfl | hd'
        · exact (executeSteps_mono htail).1 _ hv
        · exact ih htail _ hd'
      · rcases List.mem_cons.mp hd with rfl | hd'
        · exact (executeSteps_mono htail).1 _ (List.mem_cons_self _ _)
        · exact ih htail _ hd'

theorem executeSteps_closed {fuel : Nat} :
    ∀ {ds : List String} {st st' : RunState},
      executeSteps reg nbi fuel ds st = .ok st' →
        ClosedState nbi st → ClosedState nbi st' := by
  induction fuel with
  | zero =>
    intro ds st st' h hcl
    cases ds with
    | nil => cases executeSteps_nil_ok h; exact hcl
    | cons x rest => simp [executeSteps] at h
  | succ fuel ih =>
    intro ds st st' h hcl
    cases ds with
    | nil => cases executeSteps_nil_ok h; exact hcl
    | cons stepId rest =>
      rcases executeSteps_cons_ok h with ⟨_, htail⟩ |
        ⟨_, node, toolName, binding, st1, hn, _, _, hdep, htail⟩
      · exact ih htail hcl
      · have hcl1 : ClosedState nbi st1 := ih hdep hcl
        have hdeps1 : ∀ d ∈ node.depends_on, d ∈ st1.visited :=
          executeSteps_processed hdep
        have hcl2 : ClosedState nbi (stepState stepId node toolName binding st1) := by
          intro s hs
          rcases List.mem_cons.mp hs with rfl | hs'
          · exact ⟨node, hn, fun d hd =>
              List.mem_cons_of_mem _ (hdeps1 d hd)⟩
          · obtain ⟨node', hn', hdeps'⟩ := hcl1 s hs'
            exact ⟨node', hn', fun d hd =>
              List.mem_cons_of_mem _ (hdeps' d hd)⟩
        exact ih htail hcl2

theorem executeSteps_reach_origin {fuel : Nat} :
    ∀ {ds : List String} {st st' : RunState},
      executeSteps reg nbi fuel ds st = .ok st' →
        ∀ z, z ∈ st'.visited → z ∉ st.visited → ∃ d ∈ ds, Reaches nbi d z := by
  induction fuel with
  | zero =>
    intro ds st st' h z hz hz'
    cases ds with
    | nil => cases executeSteps_nil_ok h; exact absurd hz hz'
    | cons x rest => simp [executeSteps] at h
  | succ fuel ih =>
    intro ds st st' h z hz hz'
    cases ds with
    | nil => cases executeSteps_nil_ok h; exact absurd hz hz'
    | cons stepId rest =>
      rcases executeSteps_cons_ok h with ⟨_, htail⟩ |
        ⟨_, node, toolName, binding, st1, hn, _, _, hdep, htail⟩
      · obtain ⟨d, hd, hr⟩ := ih htail z hz hz'
        exact ⟨d, List.mem_cons_of_mem _ hd, hr⟩
      · by_cases hz2 : z ∈ (stepState stepId node toolName binding st1).visited
        · rcases List.mem_cons.mp hz2 with rfl | hz1
          · exact ⟨z, List.mem_cons_self _ _, Reaches.refl z⟩
          · obtain ⟨d, hd, hr⟩ := ih hdep z hz1 hz'
            exact ⟨stepId, List.mem_cons_self _ _, Reaches.step hn hd hr⟩
        · obtain ⟨d, hd, hr⟩ := ih htail z hz hz2
          exact ⟨d, List.mem_cons_of_mem _ hd, hr⟩

/-- Every id newly visited by a successful worklist execution was completed
by an inner execution: its dependencies resolved, with strictly smaller
fuel, from a state where it was not yet visited (and which is closed when
the starting state is). -/
theorem executeSteps_completion_origin {fuel : Nat} :
    ∀ {ds : List String} {st st' : RunState},
      executeSteps reg nbi fuel ds st = .ok st' →
        ClosedState nbi st →
        ∀ z, z ∈ st'.visited → z ∉ st.visited →
          ∃ fuelI stI stJ node, fuelI < fuel ∧ z ∉ stI.visited ∧
            ClosedState nbi stI ∧ nbi z = some node ∧
            executeSteps reg nbi fuelI node.depends_on stI = .ok stJ := by
  induction fuel with
  | zero =>
    intro ds st st' h hcl z hz hz'
    cases ds with
    | nil => cases executeSteps_nil_ok h; exact absurd hz hz'
    | cons x rest => simp [executeSteps] at h
  | succ fuel ih =>
    intro ds st st' h hcl z hz hz'
    cases ds with
    | nil => cases executeSteps_nil_ok h; exact absurd hz hz'
    | cons stepId rest =>
      rcases executeSteps_cons_ok h with ⟨_, htail⟩ |
        ⟨hv, node, toolName, binding, st1, hn, _, _, hdep, htail⟩
      · obtain ⟨fuelI, stI, stJ, node, hlt, h1, h2, h3, h4⟩ := ih htail hcl z hz hz'
        exact ⟨fuelI, stI, stJ, node, Nat.lt_succ_of_lt hlt, h1, h2, h3, h4⟩
      · have hcl1 : ClosedState nbi st1 := executeSteps_closed hdep hcl
        have hcl2 : ClosedState nbi (stepState stepId node toolName binding st1) := by
          intro s hs
          rcases List.mem_cons.mp hs with rfl | hs'
          · exact ⟨node, hn, fun d hd =>
              List.mem_cons_of_mem _ (executeSteps_processed hdep d hd)⟩
          · obtain ⟨node', hn', hdeps'⟩ := hcl1 s hs'
            exact ⟨node', hn', fun d hd =>
              List.mem_cons_of_mem _ (hdeps' d hd)⟩
        by_cases hz2 : z ∈ (stepState stepId node toolName binding st1).visited
        · rcases List.mem_cons.mp hz2 with rfl | hz1
          · exact ⟨fuel, st, st1, node, Nat.lt_succ_self _, hv, hcl, hn, hdep⟩
          · obtain ⟨fuelI, stI, stJ, node', hlt, h1, h2, h3, h4⟩ :=
              ih hdep hcl z hz1 hz'
            exact ⟨fuelI, stI, stJ, node', Nat.lt_succ_of_lt hlt, h1, h2, h3, h4⟩
        · obtain ⟨fuelI, stI, stJ, node', hlt, h1, h2, h3, h4⟩ :=
            ih htail hcl2 z hz hz2
          exact ⟨fuelI, stI, stJ, node', Nat.lt_succ_of_lt hlt, h1, h2, h3, h4⟩

/-- A step lying on a dependency cycle can never complete: resolving its
dependency list from a state where it is unvisited would have to visit the
step itself first, through a strictly deeper completion — an infinite
descent.  This is the formal counterpart of the unbounded recursion the
source exhibits on cyclic templates. -/
theorem no_cyclic_completion :
    ∀ (fuel : Nat) (x : String) (node : StepNode) (st stJ : RunState),
      x ∉ st.visited → ClosedState nbi st → nbi x = some node →
      (∃ d ∈ node.depends_on, Reaches nbi d x) →
      executeSteps reg nbi fuel node.depends_on st = .ok stJ → False := by
  intro fuel
  induction fuel using Nat.strong_induction_on with
  | _ fuel ih =>
    intro x node st stJ hx hcl hn ⟨d0, hd0, hr⟩ h
    have hd0v : d0 ∈ stJ.visited := executeSteps_processed h d0 hd0
    have hclJ : ClosedState nbi stJ := executeSteps_closed h hcl
    have hxJ : x ∈ stJ.visited := visited_of_reaches hclJ hr hd0v
    obtain ⟨fuelI, stI, stJ', node', hlt, h1, h2, h3, h4⟩ :=
      executeSteps_completion_origin h hcl x hxJ hx
    rw [hn] at h3
    injection h3 with h3
    subst h3
    exact ih fuelI hlt x node stI stJ' h1 h2 hn ⟨d0, hd0, hr⟩ h4

/-- The trace-bookkeeping invariant: visited ids and trace ids coincide,
each id occurs at most once, and every entry's dependencies appear among
strictly earlier entries. -/
structure GoodState (st : RunState) : Prop where
  visited_iff : ∀ s, s ∈ st.visited ↔ s ∈ traceIds st.trace
  nodup : (traceIds st.trace).Nodup
  ordered : depsBeforeAux [] st.trace = true

theorem depsBeforeAux_append_one (seen : List String) (tr : List TraceEntry)
    (e : TraceEntry) :
    depsBeforeAux seen (tr ++ [e]) =
      (depsBeforeAux seen tr &&
        e.depends_on.all (fun d => (seen ++ traceIds tr).contains d)) := by
  induction tr generalizing seen with
  | nil => simp [depsBeforeAux, traceIds]
  | cons e' rest ih =>
    simp only [List.cons_append, depsBeforeAux, List.append_eq]
    rw [ih, Bool.and_assoc]
    have hl : seen ++ traceIds (e' :: rest) = (seen ++ [e'.step_id]) ++ traceIds rest := by
      simp [traceIds]
    rw [hl]

theorem goodState_append {st1 : RunState} {stepId : String} {node : StepNode}
    {toolName : String} {binding : ToolBinding}
    (hgood : GoodState st1) (hnv : stepId ∉ st1.visited)
    (hdeps : ∀ d ∈ node.depends_on, d ∈ st1.visited) :
    GoodState (stepState stepId node toolName binding st1) := by
  have hnt : stepId ∉ traceIds st1.trace := fun hmem =>
    hnv ((hgood.visited_iff stepId).mpr hmem)
  have htr : traceIds ((stepState stepId node toolName binding st1).trace) =
      traceIds st1.trace ++ [stepId] := by
    simp [stepState, traceIds]
  refine ⟨?_, ?_, ?_⟩
  · intro s
    show s ∈ stepId :: st1.visited ↔ _
    rw [htr, List.mem_cons, List.mem_append, List.mem_singleton]
    constructor
    · rintro (rfl | hs)
      · exact Or.inr rfl
      · exact Or.inl ((hgood.visited_iff s).mp hs)
    · rintro (hs | rfl)
      · exact Or.inr ((hgood.visited_iff s).mpr hs)
      · exact Or.inl rfl
  · rw [htr, List.nodup_append]
    refine ⟨hgood.nodup, List.nodup_singleton _, ?_⟩
    intro a ha hb
    rw [List.mem_singleton] at hb
    subst hb
    exact hnt ha
  · show depsBeforeAux [] (st1.trace ++ [_]) = true
    rw [depsBeforeAux_append_one, hgood.ordered]
    simp only [Bool.true_and, List.nil_append]
    rw [List.all_eq_true]
    intro d hd
    have hmem : d ∈ traceIds st1.trace := (hgood.visited_iff d).mp (hdeps d hd)
    exact List.elem_eq_true_of_mem hmem

theorem executeSteps_good {fuel : Nat} :
    ∀ {ds : List String} {st st' : RunState},
      executeSteps reg nbi fuel ds st = .ok st' →
        GoodState st → ClosedState nbi st → GoodState st' := by
  induction fuel with
  | zero =>
    intro ds st st' h hgood hcl
    cases ds with
    | nil => cases executeSteps_nil_ok h; exact hgood
    | cons x rest => simp [executeSteps] at h
  | succ fuel ih =>
    intro ds st st' h hgood hcl
    cases ds with
    | nil => cases executeSteps_nil_ok h; exact hgood
    | cons stepId rest =>
      rcases executeSteps_cons_ok h with ⟨_, htail⟩ |
        ⟨hv, node, toolName, binding, st1, hn, _, _, hdep, htail⟩
      · exact ih htail hgood hcl
      · have hgood1 : GoodState st1 := ih hdep hgood hcl
        have hcl1 : ClosedState nbi st1 := executeSteps_closed hdep hcl
        have hdeps1 : ∀ d ∈ node.depends_on, d ∈ st1.visited :=
          executeSteps_processed hdep
        have hnv1 : stepId ∉ st1.visited := by
          intro hmem
          obtain ⟨d0, hd0, hr⟩ := executeSteps_reach_origin hdep stepId hmem hv
          obtain ⟨fuelI, stI, stJ, node', hlt, h1, h2, h3, h4⟩ :=
            executeSteps_completion_origin hdep hcl stepId hmem hv
          rw [hn] at h3
          injection h3 with h3
          subst h3
          exact no_cyclic_completion fuelI stepId node stI stJ h1 h2 hn
            ⟨d0, hd0, hr⟩ h4
        have hgood2 := @goodState_append st1 stepId node toolName binding
          hgood1 hnv1 hdeps1
        have hcl2 : ClosedState nbi (stepState stepId node toolName binding st1) := by
          intro s hs
          rcases List.mem_cons.mp hs with rfl | hs'
          · exact ⟨node, hn, fun d hd => List.mem_cons_of_mem _ (hdeps1 d hd)⟩
          · obtain ⟨node', hn', hdeps'⟩ := hcl1 s hs'
            exact ⟨node', hn', fun d hd => List.mem_cons_of_mem _ (hdeps' d hd)⟩
        exact ih htail hgood2 hcl2

theorem ctxSet_isSome (ctx : Ctx) (k setKey : String) (v : Value)
    (h : (assocLookup ctx k).isSome) :
    (assocLookup (ctxSet ctx setKey v) k).isSome := by
  by_cases he : setKey = k
  · subst he
    rw [assocLookup_ctxSet_self]
    rfl
  · rw [assocLookup_ctxSet_ne _ _ _ _ (fun hk => he hk)]
    exact h

theorem executeSteps_context_frame {fuel : Nat} :
    ∀ {ds : List String} {st st' : RunState},
      executeSteps reg nbi fuel ds st = .ok st' →
        (∀ k, (assocLookup st.context k).isSome →
          (assocLookup st'.context k).isSome) ∧
        (∀ k, k ∉ st'.trace.map (fun e => e.output_key) →
          assocLookup st'.context k = assocLookup st.context k) := by
  induction fuel with
  | zero =>
    intro ds st st' h
    cases ds with
    | nil =>
      cases executeSteps_nil_ok h
      exact ⟨fun k hk => hk, fun k _ => rfl⟩
    | cons x rest => simp [executeSteps] at h
  | succ fuel ih =>
    intro ds st st' h
    cases ds with
    | nil =>
      cases executeSteps_nil_ok h
      exact ⟨fun k hk => hk, fun k _ => rfl⟩
    | cons stepId rest =>
      rcases executeSteps_cons_ok h with ⟨_, htail⟩ |
        ⟨_, node, toolName, binding, st1, _, _, _, hdep, htail⟩
      · exact ih htail
      · obtain ⟨hs1, hf1⟩ := ih hdep
        obtain ⟨hs2, hf2⟩ := ih htail
        constructor
        · intro k hk
          exact hs2 k (ctxSet_isSome _ _ _ _ (hs1 k hk))
        · intro k hk
          have hpre2 : (stepState stepId node toolName binding st1).trace.map
              (fun e => e.output_key) ⊆ st'.trace.map (fun e => e.output_key) := by
            obtain ⟨tr, htr⟩ := (executeSteps_mono htail).2
            rw [htr, List.map_append]
            exact fun a ha => List.mem_append_left _ ha
          have hk2 : k ∉ (stepState stepId node toolName binding st1).trace.map
              (fun e => e.output_key) := fun hmem => hk (hpre2 hmem)
          have hkey : ¬(binding.output_key = k) := by
            intro he
            apply hk2
            subst he
            simp [stepState]
          have hk1 : k ∉ st1.trace.map (fun e => e.output_key) := by
            intro hmem
            apply hk2
            simp only [stepState, List.map_append]
            exact List.mem_append_left _ hmem
          rw [hf2 k hk]
          show assocLookup (ctxSet st1.context binding.output_key _) k = _
          rw [assocLookup_ctxSet_ne _ _ _ _ hkey]
          exact hf1 k hk1

end ExecutionInvariants

theorem goodState_init (ctx : Ctx) :
    GoodState { context := ctx, visited := [], trace := [] } :=
  ⟨fun s => by simp [traceIds], by simp [traceIds], rfl⟩

theorem closedState_init (nbi : String → Option StepNode) (ctx : Ctx) :
    ClosedState nbi { context := ctx, visited := [], trace := [] } :=
  fun s hs => absurd hs (List.not_mem_nil s)

/-- Dissection of a successful run_template_dag call. -/
theorem runTemplateDag_ok_elim {reg : Registry} {tpl : Template} {mode : String}
    {initialContext : Ctx} {requestedSteps : Option (List String)} {fuel : Nat}
    {out : RunOutput}
    (h : runTemplateDag reg tpl mode initialContext requestedSteps fuel = .ok out) :
    ∃ templateRouteSteps st,
      assocLookup tpl.routing mode = some templateRouteSteps ∧
        executeSteps reg (nodesById tpl.nodes) fuel
          (selectedStepsOf templateRouteSteps requestedSteps)
          { context := initialContext, visited := [], trace := [] } = .ok st ∧
        out.trace = st.trace ∧ out.context = st.context ∧
        out.selected_steps = selectedStepsOf templateRouteSteps requestedSteps := by
  unfold runTemplateDag at h
  split at h
  · exact absurd h (by simp)
  · rename_i templateRouteSteps hroute
    split at h
    · exact absurd h (by simp)
    · rename_i st hexec
      injection h with h
      subst h
      exact ⟨templateRouteSteps, st, hroute, hexec, rfl, rfl, rfl⟩

/-- C2.  For every template, every mode present in the template's routing
table, every initial context, and every requested step list that resolves
without error, the execution trace lists each executed step id exactly once
— even when multiple requested steps or multiple dependents share a common
(transitive) dependency — and every step appears in the trace strictly
after all of its declared dependencies (depsBeforeAux checks that each
entry's dependency ids occur among strictly earlier entries).  Stated for
an arbitrary tool registry, of which the source's TOOL_REGISTRY is one
instance. -/
theorem runTemplateDag_trace_once_and_ordered (reg : Registry) (tpl : Template)
    (mode : String) (initialContext : Ctx) (requestedSteps : Option (List String))
    (fuel : Nat)
    (h : (runTemplateDag reg tpl mode initialContext requestedSteps fuel).isOk = true) :
    (traceIds (runTrace reg tpl mode initialContext requestedSteps fuel)).Nodup ∧
      depsBeforeAux [] (runTrace reg tpl mode initialContext requestedSteps fuel) =
        true := by
  cases hrun : runTemplateDag reg tpl mode initialContext requestedSteps fuel with
  | error e => rw [hrun] at h; simp [Except.isOk, Except.toBool] at h
  | ok out =>
    have htr : runTrace reg tpl mode initialContext requestedSteps fuel = out.trace := by
      unfold runTrace
      rw [hrun]
    obtain ⟨routeSteps, st, hroute, hexec, htrace, hctx, hsel⟩ :=
      runTemplateDag_ok_elim hrun
    have hgood : GoodState st :=
      executeSteps_good hexec (goodState_init initialContext)
        (closedState_init (nodesById tpl.nodes) initialContext)
    rw [htr, htrace]
    exact ⟨hgood.nodup, hgood.ordered⟩

/-- A sample registry binding two tools, used to instantiate the run
theorems on concrete runs. -/
def sampleRegistry : Registry := fun t =>
  if t = "toolA" then
    some { output_key := "headings", runner := fun _ => Value.str "ra" }
  else if t = "toolB" then
    some { output_key := "clauses",
           runner := fun _ => Value.list [Value.str "x", Value.str "y"] }
  else none

/-- A sample two-step template (s2 depends on s1) with one routing mode. -/
def sampleTemplate : Template :=
  { template_id := some "tpl_demo"
    doc_type := some "nda"
    nodes := [{ id := "s1", tool := some "toolA", depends_on := [] },
              { id := "s2", tool := some "toolB", depends_on := ["s1"] }]
    routing := [("overview", ["s1", "s2"])]
    citation_policy := Value.dict [] }

theorem runTemplateDag_trace_once_and_ordered_witness :
    (runTemplateDag sampleRegistry sampleTemplate "overview"
        [("text", Value.str "T")] (some ["s2", "s1"]) 10).isOk = true ∧
      ((traceIds (runTrace sampleRegistry sampleTemplate "overview"
          [("text", Value.str "T")] (some ["s2", "s1"]) 10)).Nodup ∧
        depsBeforeAux [] (runTrace sampleRegistry sampleTemplate "overview"
          [("text", Value.str "T")] (some ["s2", "s1"]) 10) = true) :=
  ⟨by decide, runTemplateDag_trace_once_and_ordered sampleRegistry sampleTemplate
    "overview" [("text", Value.str "T")] (some ["s2", "s1"]) 10 (by decide)⟩

/-- Counterexample to C5 as stated: requesting ["s1", "bad"] where only
"bad" is unknown raises the configuration error only after s1's tool has
already executed (one trace record existed at the moment of the raise), so
the error does not always precede every tool execution — though the caller
still receives no partial output (the run returns only the error). -/
theorem runTemplateDag_error_after_tool_ran :
    stepsErr (executeSteps sampleRegistry (nodesById sampleTemplate.nodes) 10
        ["s1", "bad"]
        { context := [("text", Value.str "T")], visited := [], trace := [] }) =
      some (DagError.unknownStep "bad") ∧
      stepsErrTraceLength (executeSteps sampleRegistry (nodesById sampleTemplate.nodes)
        10 ["s1", "bad"]
        { context := [("text", Value.str "T")], visited := [], trace := [] }) = 1 ∧
      runErr (runTemplateDag sampleRegistry sampleTemplate "overview"
        [("text", Value.str "T")] (some ["s1", "bad"]) 10) =
        some (DagError.unknownStep "bad") := by
  refine ⟨by decide, by decide, by decide⟩

/-- C5 (amended).  For every template, mode, and initial context, if the
non-empty requested step list contains a step id (or a transitive
dependency id) not present in the template's node table, run_template_dag
never returns a successful result: the run fails with an error and the
caller receives no partial output — no context or trace from the failed
run is returned as success.  (Tools bound to earlier requested steps may
already have executed when the error is raised; see the counterexample.) -/
theorem runTemplateDag_unknown_step_fails (reg : Registry) (tpl : Template)
    (mode : String) (initialContext : Ctx) (l : List String) (fuel : Nat)
    (s z : String) (hs : s ∈ l) (hr : Reaches (nodesById tpl.nodes) s z)
    (hz : nodesById tpl.nodes z = none) :
    (runTemplateDag reg tpl mode initialContext (some l) fuel).isOk = false := by
  cases hrun : runTemplateDag reg tpl mode initialContext (some l) fuel with
  | error e => rfl
  | ok out =>
    exfalso
    obtain ⟨routeSteps, st, hroute, hexec, _, _, _⟩ := runTemplateDag_ok_elim hrun
    have hne : l ≠ [] := fun habs => by subst habs; simp at hs
    have hsel : selectedStepsOf routeSteps (some l) = l := by
      cases l with
      | nil => exact absurd rfl hne
      | cons a rest => rfl
    rw [hsel] at hexec
    have hsv : s ∈ st.visited := executeSteps_processed hexec s hs
    have hcl : ClosedState (nodesById tpl.nodes) st :=
      executeSteps_closed hexec
        (closedState_init (nodesById tpl.nodes) initialContext)
    have hzv : z ∈ st.visited := visited_of_reaches hcl hr hsv
    obtain ⟨node, hn, _⟩ := hcl z hzv
    rw [hz] at hn
    exact Option.noConfusion hn

theorem runTemplateDag_unknown_step_fails_witness :
    ("bad" ∈ ["s1", "bad"] ∧ nodesById sampleTemplate.nodes "bad" = none) ∧
      (runTemplateDag sampleRegistry sampleTemplate "overview"
        [("text", Value.str "T")] (some ["s1", "bad"]) 10).isOk = false :=
  ⟨⟨by decide, by decide⟩,
    runTemplateDag_unknown_step_fails sampleRegistry sampleTemplate "overview"
      [("text", Value.str "T")] ["s1", "bad"] 10 "bad" "bad" (by decide)
      (Reaches.refl "bad") (by decide)⟩

/-- C10.  Implicit: run_template_dag works on a copy of the caller's
initial context (the embedding threads a fresh state seeded with it), and
in the returned final context every key of the initial context is still
present, with its initial value unchanged unless that key is the declared
output key of some executed tool (recorded in the trace). -/
theorem runTemplateDag_preserves_initial_context (reg : Registry) (tpl : Template)
    (mode : String) (initialContext : Ctx) (requestedSteps : Option (List String))
    (fuel : Nat) (k : String) (v : Value)
    (h : (runTemplateDag reg tpl mode initialContext requestedSteps fuel).isOk = true)
    (hk : assocLookup initialContext k = some v) :
    (assocLookup (runContext reg tpl mode initialContext requestedSteps fuel) k).isSome
        = true ∧
      (k ∈ (runTrace reg tpl mode initialContext requestedSteps fuel).map
          (fun e => e.output_key) ∨
        assocLookup (runContext reg tpl mode initialContext requestedSteps fuel) k =
          some v) := by
  cases hrun : runTemplateDag reg tpl mode initialContext requestedSteps fuel with
  | error e => rw [hrun] at h; simp [Except.isOk, Except.toBool] at h
  | ok out =>
    have htr : runTrace reg tpl mode initialContext requestedSteps fuel = out.trace := by
      unfold runTrace
      rw [hrun]
    have hctx2 : runContext reg tpl mode initialContext requestedSteps fuel =
        out.context := by
      unfold runContext
      rw [hrun]
    obtain ⟨routeSteps, st, hroute, hexec, htrace, hctx, hsel⟩ :=
      runTemplateDag_ok_elim hrun
    obtain ⟨hsome, hframe⟩ := executeSteps_context_frame hexec
    rw [htr, hctx2, htrace, hctx]
    constructor
    · have := hsome k (by rw [hk]; rfl)
      exact this
    · by_cases hkey : k ∈ st.trace.map (fun e => e.output_key)
      · exact Or.inl hkey
      · refine Or.inr ?_
        rw [hframe k hkey]
        exact hk

theorem runTemplateDag_preserves_initial_context_witness :
    ((runTemplateDag sampleRegistry sampleTemplate "overview"
          [("text", Value.str "T")] (some ["s2"]) 10).isOk = true ∧
        assocLookup [("text", Value.str "T")] "text" = some (Value.str "T")) ∧
      ((assocLookup (runContext sampleRegistry sampleTemplate "overview"
            [("text", Value.str "T")] (some ["s2"]) 10) "text").isSome = true ∧
        ("text" ∈ (runTrace sampleRegistry sampleTemplate "overview"
            [("text", Value.str "T")] (some ["s2"]) 10).map (fun e => e.output_key) ∨
          assocLookup (runContext sampleRegistry sampleTemplate "overview"
            [("text", Value.str "T")] (some ["s2"]) 10) "text" =
              some (Value.str "T"))) :=
  ⟨⟨by decide, rfl⟩,
    runTemplateDag_preserves_initial_context sampleRegistry sampleTemplate "overview"
      [("text", Value.str "T")] (some ["s2"]) 10 "text" (Value.str "T")
      (by decide) rfl⟩

end ContractCore
